import Mathlib

/-!
Verification of the `bigdata` scraping pipeline

A shallow embedding, in Lean 4, of the parts of the `bigdata` repository that
the testable properties of the specification talk about:

* `CleaningPipeline._normalize_url` and `CleaningPipeline.process_item`
  (`src/bigdata/pipelines.py`);
* the buffered JSON export writer `JSONExportPipeline` (submit / flush /
  close), its failure path, and the rotating variant
  `RotatingJSONExportPipeline` (`src/bigdata/pipelines.py`);
* the retry / bot-protection / priority middlewares
  (`src/bigdata/middlewares.py`) and the spider re-queue hook
  (`src/bigdata/spiders/article.py`);
* the offline dedup & grouping stage (`src/post_process/group_dedupe.py`);
* the heuristic article parser `GenericAutoParser`
  (`src/bigdata/parsers/generic_auto.py`) and the dispatcher
  `ArticleSpider.parse_item`.

Pure Python functions become Lean functions; mutable pipeline state becomes
explicit state records threaded through step functions; calls into external
libraries (lxml serialization, hashlib, arbitrary configured XPath strings)
become function parameters or concrete tree queries over a flattened
document representation.
-/

namespace Bigdata

/-! ## Python string helpers

`str.strip()` / whitespace handling, shared by several components. The
Python `\s` and `str.strip` use (at least) space, tab, newline, carriage return,
form feed and vertical tab; we model the ASCII set. -/

def isPySpace (c : Char) : Bool :=
  c = ' ' ∨ c = '\t' ∨ c = '\n' ∨ c = '\x0d' ∨ c = '\x0c' ∨ c = '\x0b'

/-- Python `str.strip()` (whitespace from both ends). -/
def pyStrip (s : String) : String :=
  String.mk (((s.data.dropWhile isPySpace).reverse.dropWhile isPySpace).reverse)

/-- Python `str.lstrip` on a char list is `dropWhile`. -/
def pyJoinSp (parts : List String) : String :=
  String.intercalate " " ((parts.map pyStrip).filter (fun t => t ≠ ""))

/-! ## URL parsing model

A simplified model of `urllib.parse.urlparse` restricted to what the
pipeline uses: the `path` component and the `netloc` component of a URL.
For a URL of shape `scheme://netloc/path?query#fragment` the netloc is the
segment between `://` and the first of `/?#`, and the path runs from that
point to the first of `?#`.  A string with no `://` is treated as having an
empty netloc and everything up to the first `?`/`#` as its path, matching
`urlparse` on scheme-less inputs such as `example.com/a`. -/

def afterSchemeSep : List Char → Option (List Char)
  | [] => none
  | ':' :: '/' :: '/' :: rest => some rest
  | _ :: rest => afterSchemeSep rest

def isUrlStop (c : Char) : Bool := c = '/' ∨ c = '?' ∨ c = '#'

/-- Source `urlparse(u).netloc` (model). -/
def pyNetloc (u : String) : String :=
  match afterSchemeSep u.data with
  | some rest => String.mk (rest.takeWhile (fun c => ¬ isUrlStop c))
  | none => ""

/-- Source `urlparse(u).path` (model). -/
def pyPath (u : String) : String :=
  let body :=
    match afterSchemeSep u.data with
    | some rest => rest.dropWhile (fun c => ¬ isUrlStop c)
    | none => u.data
  String.mk (body.takeWhile (fun c => ¬ (c = '?' ∨ c = '#')))

/-! ## `CleaningPipeline._normalize_url` -/

/-- Everything before the first `#` (the `url.split` at `#` in
`_normalize_url`). -/
def dropFragment (u : String) : String :=
  String.mk (u.data.takeWhile (fun c => c ≠ '#'))

/-- The `url.rstrip` of trailing slashes. -/
def rstripSlashes (u : String) : String :=
  String.mk ((u.data.reverse.dropWhile (fun c => c = '/')).reverse)

/-- Does the string end with `'/'`? (`str.endswith('/')`). -/
def endsWithSlash (u : String) : Bool :=
  match u.data.reverse with
  | [] => false
  | c :: _ => c = '/'

/-- Source `CleaningPipeline._normalize_url`: drop the fragment, then strip trailing
slashes when the parsed path is neither `/` nor slash-free. -/
def normalizeUrl (u : String) : String :=
  if pyPath (dropFragment u) ≠ "/" ∧ endsWithSlash (pyPath (dropFragment u)) = true
  then rstripSlashes (dropFragment u) else dropFragment u

/-! ## `CleaningPipeline.process_item`

`_clean_text` is concrete (regex whitespace collapse, strip, control-char
filter).  `_clean_html` re-serializes through lxml and `_generate_content_hash`
calls `hashlib.md5`; both are external libraries, so they enter the model as
function parameters. -/

/-- Collapse each run of whitespace into one space (the `re.sub` of
whitespace runs in `_clean_text`). -/
def collapseWs : List Char → List Char
  | [] => []
  | [c] => [if isPySpace c then ' ' else c]
  | c :: d :: rest =>
    if isPySpace c ∧ isPySpace d then collapseWs (d :: rest)
    else (if isPySpace c then ' ' else c) :: collapseWs (d :: rest)

/-- Source `CleaningPipeline._clean_text`. -/
def cleanText (s : String) : String :=
  let collapsed := String.mk (collapseWs s.data)
  let stripped := pyStrip collapsed
  String.mk (stripped.data.filter (fun c => 32 ≤ c.toNat ∨ c = '\n' ∨ c = '\t'))

structure CleanItem where
  title : String
  author : Option String
  tags : List String
  body : String
  bodyType : String
  url : String
  contentHash : String
deriving DecidableEq, Repr

/-- Source `CleaningPipeline.process_item`.  `digest` stands for the md5 hex digest,
`cleanHtmlF` for `_clean_html` (both external libraries). -/
def cleaningProcessItem (digest : String → String) (cleanHtmlF : String → String)
    (it : CleanItem) : CleanItem :=
  let title := cleanText it.title
  let author := it.author.map cleanText
  let tags := (it.tags.map cleanText).filter (fun t => t ≠ "")
  let body := if it.bodyType = "html" then cleanHtmlF it.body else it.body
  let url := normalizeUrl it.url
  { title := title, author := author, tags := tags, body := body,
    bodyType := it.bodyType, url := url,
    contentHash := digest (title ++ String.mk (body.data.take 1000)) }

/-! ### Lemmas about URL normalization -/

theorem takeWhile_not_hash_no_hash (l : List Char) :
    '#' ∉ l.takeWhile (fun c => c ≠ '#') := by
  intro h
  have := List.mem_takeWhile_imp h
  simp at this

theorem takeWhile_eq_self_of_no_hash (l : List Char) (h : '#' ∉ l) :
    l.takeWhile (fun c => c ≠ '#') = l := by
  apply List.takeWhile_eq_self_iff.mpr
  intro c hc
  simp only [decide_eq_true_eq]
  intro hcEq
  exact h (hcEq ▸ hc)

theorem dropFragment_no_hash (u : String) : '#' ∉ (dropFragment u).data :=
  takeWhile_not_hash_no_hash u.data

theorem dropFragment_eq_self (u : String) (h : '#' ∉ u.data) :
    dropFragment u = u := by
  unfold dropFragment
  rw [takeWhile_eq_self_of_no_hash u.data h]

theorem rstripSlashes_sub (u : String) (c : Char) (h : c ∈ (rstripSlashes u).data) :
    c ∈ u.data := by
  unfold rstripSlashes at h
  simp only [String.data] at h
  have h1 : c ∈ u.data.reverse.dropWhile (fun c => c = '/') := by
    rcases List.mem_reverse.mp h with h'
    exact h'
  have h2 : c ∈ u.data.reverse := List.dropWhile_sublist _ |>.mem h1
  exact List.mem_reverse.mp h2

theorem dropWhile_head_not (p : Char → Bool) (l : List Char) :
    ∀ c rest, l.dropWhile p = c :: rest → p c = false := by
  induction l with
  | nil => intro c rest h; simp at h
  | cons a l ih =>
    intro c rest h
    cases hp : p a with
    | true =>
      rw [List.dropWhile_cons, if_pos (by simp [hp])] at h
      exact ih c rest h
    | false =>
      rw [List.dropWhile_cons, if_neg (by simp [hp])] at h
      injection h with h1 h2
      subst h1
      exact hp

theorem rstripSlashes_not_endsWithSlash (u : String) :
    endsWithSlash (rstripSlashes u) = false := by
  unfold endsWithSlash rstripSlashes
  simp only [List.reverse_reverse]
  cases hd : u.data.reverse.dropWhile (fun c => c = '/') with
  | nil => rfl
  | cons c rest => simpa using dropWhile_head_not _ _ c rest hd

theorem rstripSlashes_eq_self_of_not_slash (u : String)
    (h : endsWithSlash u = false) : rstripSlashes u = u := by
  unfold endsWithSlash at h
  unfold rstripSlashes
  have hdw : u.data.reverse.dropWhile (fun c => c = '/') = u.data.reverse := by
    cases hrev : u.data.reverse with
    | nil => simp
    | cons c rest =>
      rw [hrev] at h
      simp only at h
      rw [List.dropWhile_cons, if_neg (by simpa using h)]
  rw [hdw]
  cases u with
  | mk d => simp

theorem normalizeUrl_no_hash (u : String) : '#' ∉ (normalizeUrl u).data := by
  unfold normalizeUrl
  by_cases h : pyPath (dropFragment u) ≠ "/" ∧ endsWithSlash (pyPath (dropFragment u)) = true
  · rw [if_pos h]
    intro hmem
    exact dropFragment_no_hash u (rstripSlashes_sub _ '#' hmem)
  · rw [if_neg h]
    exact dropFragment_no_hash u

theorem normalizeUrl_strips (u : String)
    (h1 : pyPath (dropFragment u) ≠ "/")
    (h2 : endsWithSlash (pyPath (dropFragment u)) = true) :
    normalizeUrl u = rstripSlashes (dropFragment u) ∧
      endsWithSlash (normalizeUrl u) = false := by
  have hval : normalizeUrl u = rstripSlashes (dropFragment u) := by
    unfold normalizeUrl
    rw [if_pos ⟨h1, h2⟩]
  refine ⟨hval, ?_⟩
  rw [hval]
  exact rstripSlashes_not_endsWithSlash _

theorem normalizeUrl_idem (u : String) :
    normalizeUrl (normalizeUrl u) = normalizeUrl u := by
  have hfrag : dropFragment (normalizeUrl u) = normalizeUrl u :=
    dropFragment_eq_self _ (normalizeUrl_no_hash u)
  by_cases hc : pyPath (dropFragment u) ≠ "/" ∧ endsWithSlash (pyPath (dropFragment u)) = true
  · have hval : normalizeUrl u = rstripSlashes (dropFragment u) := by
      unfold normalizeUrl; rw [if_pos hc]
    have hnoSlash : endsWithSlash (normalizeUrl u) = false := by
      rw [hval]; exact rstripSlashes_not_endsWithSlash _
    show (if pyPath (dropFragment (normalizeUrl u)) ≠ "/" ∧
            endsWithSlash (pyPath (dropFragment (normalizeUrl u))) = true
          then rstripSlashes (dropFragment (normalizeUrl u))
          else dropFragment (normalizeUrl u)) = normalizeUrl u
    rw [hfrag]
    by_cases hc2 : pyPath (normalizeUrl u) ≠ "/" ∧ endsWithSlash (pyPath (normalizeUrl u)) = true
    · rw [if_pos hc2]
      exact rstripSlashes_eq_self_of_not_slash _ hnoSlash
    · rw [if_neg hc2]
  · have hval : normalizeUrl u = dropFragment u := by
      unfold normalizeUrl; rw [if_neg hc]
    show (if pyPath (dropFragment (normalizeUrl u)) ≠ "/" ∧
            endsWithSlash (pyPath (dropFragment (normalizeUrl u))) = true
          then rstripSlashes (dropFragment (normalizeUrl u))
          else dropFragment (normalizeUrl u)) = normalizeUrl u
    rw [hfrag, hval, if_neg hc]

/-! ## `JSONExportPipeline`: the buffered writer

State of the pipeline: per-domain buffers of pre-serialized JSON lines, the
per-domain byte counters, and the per-domain output file contents (the code
keeps one append-mode handle per domain in `self.file_handlers`).  The
producer (`process_item`) only ever appends to a buffer; the actual file
write happens in `_flush_buffer`, possibly on the background flusher thread.
We model an execution as a trace of `submit` and `flush` events in arbitrary
order, which covers flushes triggered by the size/time conditions as well as
explicit ones. -/

def updF {α : Type} (f : String → α) (k : String) (v : α) : String → α :=
  fun x => if x = k then v else f x

structure WState where
  buffers : String → List String
  bufferSizes : String → Nat
  files : String → List String

/-- Model of `process_item`: serialize once, append the line to the
per-domain buffer. -/
def wSubmit (st : WState) (d : String) (line : String) : WState :=
  { st with buffers := updF st.buffers d (st.buffers d ++ [line]),
            bufferSizes := updF st.bufferSizes d (st.bufferSizes d + line.length) }

/-- Source `_flush_buffer` (successful write): drain the buffer and append the
drained lines, in order, to the per-domain file. -/
def wFlush (st : WState) (d : String) : WState :=
  if st.buffers d = [] then st
  else
    { buffers := updF st.buffers d [],
      bufferSizes := updF st.bufferSizes d 0,
      files := updF st.files d (st.files d ++ st.buffers d) }

/-- Source `_flush_buffer` with an explicit write outcome and with the lines that
producers append between the drain (under the lock) and the failure
(outside the lock).  On failure the drained items go back at the *front* of
the buffer, the byte counter is re-credited, no file content changes, and
the boolean result `false` records that the exception is re-raised to the
caller. -/
def wFlushAttempt (writeOk : Bool) (arrivals : List String) (st : WState)
    (d : String) : WState × Bool :=
  let items := st.buffers d
  let itemBytes := st.bufferSizes d
  let arrivalBytes := (arrivals.map String.length).sum
  if items = [] then (st, true)
  else if writeOk then
    ({ buffers := updF st.buffers d arrivals,
       bufferSizes := updF st.bufferSizes d arrivalBytes,
       files := updF st.files d (st.files d ++ items) }, true)
  else
    ({ st with buffers := updF st.buffers d (items ++ arrivals),
               bufferSizes := updF st.bufferSizes d (arrivalBytes + itemBytes) }, false)

inductive WEvent where
  | submit (d : String) (line : String)
  | flush (d : String)

def wStep (st : WState) : WEvent → WState
  | .submit d line => wSubmit st d line
  | .flush d => wFlush st d

def wRun (st : WState) (evts : List WEvent) : WState := evts.foldl wStep st

/-- Source `close_spider`: stop the flusher, then force-flush every buffer. -/
def wClose (st : WState) : WState :=
  { buffers := fun _ => [],
    bufferSizes := fun _ => 0,
    files := fun d => st.files d ++ st.buffers d }

/-- The lines submitted for domain `d`, in submission order. -/
def submittedTo (d : String) : List WEvent → List String
  | [] => []
  | .submit d' l :: rest =>
    if d' = d then l :: submittedTo d rest else submittedTo d rest
  | .flush _ :: rest => submittedTo d rest

def initialW (f0 : String → List String) : WState :=
  ⟨fun _ => [], fun _ => 0, f0⟩

theorem wStep_files_buffers (st : WState) (e : WEvent) (d : String) :
    (wStep st e).files d ++ (wStep st e).buffers d =
      st.files d ++ st.buffers d ++ submittedTo d [e] := by
  cases e with
  | submit d' l =>
    show (wSubmit st d' l).files d ++ (wSubmit st d' l).buffers d = _
    unfold wSubmit submittedTo
    by_cases h : d' = d
    · subst h
      simp [updF, submittedTo]
    · simp [updF, h, submittedTo, Ne.symm h]
  | flush d' =>
    show (wFlush st d' ).files d ++ (wFlush st d').buffers d = _
    unfold wFlush
    by_cases hemp : st.buffers d' = []
    · rw [if_pos hemp]; simp [submittedTo]
    · rw [if_neg hemp]
      by_cases h : d' = d
      · subst h
        simp [updF, submittedTo]
      · simp [updF, Ne.symm h, submittedTo]

theorem wRun_files_buffers (evts : List WEvent) (st : WState) (d : String) :
    (wRun st evts).files d ++ (wRun st evts).buffers d =
      st.files d ++ st.buffers d ++ submittedTo d evts := by
  induction evts generalizing st with
  | nil => simp [wRun, submittedTo]
  | cons e rest ih =>
    show (wRun (wStep st e) rest).files d ++ (wRun (wStep st e) rest).buffers d = _
    rw [ih (wStep st e)]
    rw [wStep_files_buffers st e d]
    cases e with
    | submit d' l =>
      by_cases h : d' = d
      · subst h; simp [submittedTo]
      · simp [submittedTo, h]
    | flush d' => simp [submittedTo]

/-! ## `RotatingJSONExportPipeline`

The rotation variant keeps, per domain, a cumulative written-bytes counter
`file_sizes`, a part index `file_indices`, and overrides `_flush_buffer` to
rotate before flushing once the counter reaches `max_file_size`.  Two
details of the real code are captured exactly:

* after calling the parent flush it executes
  `self.file_sizes[domain] += self.buffer_sizes[domain]`, but the parent
  flush has just reset `buffer_sizes[domain]` to `0`;
* the parent flush always opens `<sanitized>.jsonl`; the `_get_filename`
  helper carrying the `_partNNNN` suffix is never called.

Files are keyed by file *name* here so that the rotation naming behaviour is
observable. -/

def sanitizeDomain (d : String) : String :=
  String.mk ((d.data.map (fun c => if c = '.' ∨ c = '/' ∨ c = '\\' then '_' else c)).take 200)

def baseFileName (d : String) : String := sanitizeDomain d ++ ".jsonl"

/-- Source `f"{index:04d}"`. -/
def pad4 (n : Nat) : String :=
  let s := toString n
  if s.length < 4 then String.mk (List.replicate (4 - s.length) '0') ++ s else s

/-- Source `RotatingJSONExportPipeline._get_filename` (defined but never invoked by
the flush path). -/
def rotFileName (d : String) (idx : Nat) : String :=
  if idx = 0 then baseFileName d
  else sanitizeDomain d ++ "_part" ++ pad4 idx ++ ".jsonl"

structure RotState where
  buffers : String → List String
  bufferSizes : String → Nat
  bufferSizesTracked : String → Bool
  handlers : String → Bool
  filesByName : String → List String
  fileSizes : String → Nat
  fileSizesTracked : String → Bool
  fileIndices : String → Nat

def rotInit : RotState :=
  ⟨fun _ => [], fun _ => 0, fun _ => false, fun _ => false,
   fun _ => [], fun _ => 0, fun _ => false, fun _ => 0⟩

def rotSubmit (st : RotState) (d : String) (line : String) : RotState :=
  { st with buffers := updF st.buffers d (st.buffers d ++ [line]),
            bufferSizes := updF st.bufferSizes d (st.bufferSizes d + line.length),
            bufferSizesTracked := updF st.bufferSizesTracked d true }

/-- Source `_rotate_file`. -/
def rotRotateFile (st : RotState) (d : String) : RotState :=
  { st with handlers := updF st.handlers d false,
            fileIndices := updF st.fileIndices d (st.fileIndices d + 1),
            fileSizes := updF st.fileSizes d 0 }

/-- The parent `JSONExportPipeline._flush_buffer` as invoked by the rotating
subclass: the (re)opened handle always targets the base file name. -/
def rotParentFlush (st : RotState) (d : String) : RotState :=
  if st.buffers d = [] then st
  else
    { st with
      buffers := updF st.buffers d [],
      bufferSizes := updF st.bufferSizes d 0,
      handlers := updF st.handlers d true,
      filesByName :=
        updF st.filesByName (baseFileName d)
          (st.filesByName (baseFileName d) ++ st.buffers d) }

/-- Source `RotatingJSONExportPipeline._flush_buffer`. -/
def rotFlush (maxSize : Nat) (st : RotState) (d : String) : RotState :=
  let st1 :=
    if st.fileSizesTracked d = true ∧ maxSize ≤ st.fileSizes d
    then rotRotateFile st d else st
  let st2 := rotParentFlush st1 d
  if st2.bufferSizesTracked d = true then
    { st2 with
      fileSizes := updF st2.fileSizes d (st2.fileSizes d + st2.bufferSizes d),
      fileSizesTracked := updF st2.fileSizesTracked d true }
  else st2

/-! ## Request resilience middlewares

`SmartRetryMiddleware` (retry with priority boost, exhaustion → re-queue at
priority 100), `BotProtectionDetectionMiddleware` (indicator match →
re-queue at priority 90), `RequestPriorityMiddleware` (sets the priority to
a per-class constant on every `process_request` pass), and the spider
methods `_requeue_request` / `errback_httpbin` (per-reason re-queue tiers). -/

structure MRequest where
  priority : Int
  retryTimes : Nat
  maxRetryTimes : Nat
  isArticle : Bool
  isPagination : Bool
  dontRetry : Bool
  backoffFactor : ℚ
deriving DecidableEq, Repr

/-- The reason handed to `SmartRetryMiddleware._retry` (an HTTP status code
or a transport exception); used only for logging there. -/
inductive RetryReason where
  | status (code : Nat)
  | timeoutExc
  | connectionExc
deriving DecidableEq, Repr

/-- Outcome of `SmartRetryMiddleware._retry`: either a boosted retry request,
or `None` after pushing the request to the external re-queue channel (the
push happens only when the spider exposes `_requeue_request`). -/
inductive RetryOutcome where
  | retry (req : MRequest) (delay : ℚ)
  | giveUp (requeuedAt : Option Nat)
deriving DecidableEq, Repr

/-- Source `SmartRetryMiddleware._retry`.  Note that on exhaustion the re-queue
priority is the constant `100`, whatever `reason` was. -/
def smartRetry (hasRequeueHook : Bool) (priorityAdjust : Int)
    (req : MRequest) (_reason : RetryReason) : RetryOutcome :=
  let retryTimes := req.retryTimes + 1
  if retryTimes ≤ req.maxRetryTimes then
    .retry { req with retryTimes := retryTimes,
                      priority := req.priority + priorityAdjust }
      (min (req.backoffFactor ^ retryTimes) 60)
  else
    .giveUp (if hasRequeueHook then some 100 else none)

/-- Source `SmartRetryMiddleware.process_response`: retry when the status is in the
configured retry-code set and the request is not marked `dont_retry`;
otherwise pass the response through (`none` here = response delivered
downstream). -/
def smartRetryProcessResponse (retryCodes : List Nat) (hasRequeueHook : Bool)
    (priorityAdjust : Int) (req : MRequest) (status : Nat) :
    Option RetryOutcome :=
  if req.dontRetry then none
  else if status ∈ retryCodes then
    some (smartRetry hasRequeueHook priorityAdjust req (.status status))
  else none

/-- Source `ArticleSpider._requeue_request`: priority ≥ 50 → `lpush` (front of the
Redis list), otherwise `rpush` (back). -/
inductive QueueEnd where
  | front
  | back
deriving DecidableEq, Repr

def requeueEnd (priority : Nat) : QueueEnd :=
  if 50 ≤ priority then .front else .back

/-- The failure classification in `ArticleSpider.errback_httpbin`. -/
inductive FailKind where
  | forbidden403
  | rateLimited429
  | serverError5xx
  | timeout
  | other
deriving DecidableEq, Repr

/-- Re-queue priority chosen by `errback_httpbin` per failure kind. -/
def errbackPriority : FailKind → Nat
  | .forbidden403 => 100
  | .rateLimited429 => 50
  | .serverError5xx => 25
  | .timeout => 10
  | .other => 5

/-- Re-queue priority used by `BotProtectionDetectionMiddleware` when a
blocking indicator matches the response body. -/
def botProtectionRequeuePriority : Nat := 90

/-- Source `RequestPriorityMiddleware.process_request`: unconditionally overwrite
the priority with the per-class constant. -/
def requestPriorityProcess (req : MRequest) : MRequest :=
  { req with priority :=
      if req.isArticle then 100 else if req.isPagination then 50 else 10 }

/-- One fetch cycle per response in the list: the downloader middleware
chain first runs `process_request` (which includes
`RequestPriorityMiddleware`), then the response passes back through
`SmartRetryMiddleware.process_response`.  Responses are assumed to be
long, indicator-free HTML so that `ResponseValidationMiddleware` and
`BotProtectionDetectionMiddleware` pass them through.  The function returns
the request whose response is finally delivered to the spider callback (in
the form it had when it was (re-)scheduled) together with the delivered
status; on retry exhaustion `_retry` returns `None` and
`process_response` falls back to `... or response`, so the error response
itself is delivered. -/
def runAttempts (retryCodes : List Nat) (priorityAdjust : Int) :
    MRequest → List Nat → Option (MRequest × Nat)
  | _, [] => none
  | req, status :: rest =>
    let fetched := requestPriorityProcess req
    match smartRetryProcessResponse retryCodes true priorityAdjust fetched status with
    | some (.retry r _) => runAttempts retryCodes priorityAdjust r rest
    | some (.giveUp _) => some (req, status)
    | none => some (req, status)

/-! ## Offline deduplication & grouping (`src/post_process/group_dedupe.py`)

`GroupAndDedupe.process_chunk` drops intra-chunk duplicate URLs (comparing
*stripped* URLs) and groups the surviving records by derived site id in a
dict whose iteration order is insertion order.  The coordinator in
`dedupe_and_group` then walks the groups of each chunk and admits a record iff
its (*unstripped*) URL is not yet in the global seen set, appending it
either to one flat list (single-file mode) or to the per-domain output
lists (grouped mode).  Chunks are merged in completion order; we fold them
in a fixed order, which is one such order — the counting claims are
order-independent. -/

structure DRecord where
  url : String
  payload : Nat
deriving DecidableEq, Repr

/-- Source `GroupAndDedupe.extract_domain`. -/
def extractDomain (u : String) : String :=
  let d0 := if pyNetloc u = ""
            then String.mk ((pyPath u).data.takeWhile (fun c => c ≠ '/'))
            else pyNetloc u
  let d1 := if ("www.".data).isPrefixOf d0.data then String.mk (d0.data.drop 4) else d0
  let d2 := String.mk (d1.data.map (fun c => if c = ':' ∨ c = '/' then '_' else c))
  if d2 = "" then "unknown" else d2

/-- Source `defaultdict(list)` insert preserving key insertion order. -/
def groupAdd : List (String × List DRecord) → String → DRecord →
    List (String × List DRecord)
  | [], d, r => [(d, [r])]
  | (d', rs) :: rest, d, r =>
    if d' = d then (d', rs ++ [r]) :: rest else (d', rs) :: groupAdd rest d r

def processChunkGo : List DRecord → List (String × List DRecord) → List String →
    List (String × List DRecord)
  | [], gs, _ => gs
  | r :: rest, gs, seen =>
    let u := pyStrip r.url
    if u = "" ∨ u ∈ seen then processChunkGo rest gs seen
    else processChunkGo rest (groupAdd gs (extractDomain u) r) (u :: seen)

/-- Source `GroupAndDedupe.process_chunk` (the returned per-chunk seen set is
discarded by the coordinator). -/
def processChunk (chunk : List DRecord) : List (String × List DRecord) :=
  processChunkGo chunk [] []

structure MergeSt where
  seen : List String
  grouped : List (String × List DRecord)
  flat : List DRecord
deriving Repr

/-- One iteration of the coordinator inner loop in `dedupe_and_group`. -/
def mergeRecord (groupByDomain : Bool) (st : MergeSt) (d : String) (r : DRecord) :
    MergeSt :=
  if r.url ≠ "" ∧ r.url ∉ st.seen then
    { seen := r.url :: st.seen,
      grouped := if groupByDomain then groupAdd st.grouped d r else st.grouped,
      flat := if groupByDomain then st.flat else st.flat ++ [r] }
  else st

def mergePairs (groupByDomain : Bool) : MergeSt → List (String × DRecord) → MergeSt
  | st, [] => st
  | st, (d, r) :: rest => mergePairs groupByDomain (mergeRecord groupByDomain st d r) rest

/-- The traversal order of the groups of one chunk: groups in dict insertion
order, records within a group in append order. -/
def groupPairs (gs : List (String × List DRecord)) : List (String × DRecord) :=
  gs.flatMap (fun g => g.2.map (fun r => (g.1, r)))

def mergeChunk (groupByDomain : Bool) (st : MergeSt) (chunk : List DRecord) : MergeSt :=
  mergePairs groupByDomain st (groupPairs (processChunk chunk))

/-- Source `GroupAndDedupe.dedupe_and_group`, seeded with the externally loaded
URL set. -/
def runDedupe (groupByDomain : Bool) (seed : List String)
    (chunks : List (List DRecord)) : MergeSt :=
  chunks.foldl (fun st c => mergeChunk groupByDomain st c) ⟨seed, [], []⟩

/-- Total number of records over all grouped output files. -/
def groupTotal (gs : List (String × List DRecord)) : Nat :=
  (gs.map (fun g => g.2.length)).sum

/-- Specification-side count: one record per distinct URL not in the seed
set. -/
def distinctNewCount (seed : List String) (rs : List DRecord) : Nat :=
  (((rs.map DRecord.url).dedup).filter (fun u => u ∉ seed)).length

example : (runDedupe false [] [[⟨"http://a.com/x", 0⟩, ⟨"http://a.com/x", 1⟩, ⟨"http://b.com/y", 2⟩]]).flat.length = 2 := by decide
example : groupTotal (runDedupe true [] [[⟨"http://a.com/x", 0⟩], [⟨"http://a.com/x", 1⟩, ⟨"http://b.com/y", 2⟩]]).grouped = 2 := by decide
example : (runDedupe false [] [[⟨"a", 0⟩, ⟨" a", 1⟩]]).flat.length = 1 := by decide
example : distinctNewCount [] [⟨"a", 0⟩, ⟨" a", 1⟩] = 2 := by decide

/-! ### Lemmas for the dedup stage -/

def pairUrls (ps : List (String × DRecord)) : List String :=
  ps.map (fun p => p.2.url)

theorem groupPairs_cons (d' : String) (rs : List DRecord)
    (rest : List (String × List DRecord)) :
    groupPairs ((d', rs) :: rest) =
      rs.map (fun r => (d', r)) ++ groupPairs rest := by
  simp [groupPairs]

theorem groupPairs_groupAdd (gs : List (String × List DRecord)) (d : String)
    (r : DRecord) :
    (groupPairs (groupAdd gs d r)).Perm (groupPairs gs ++ [(d, r)]) := by
  induction gs with
  | nil => simp [groupAdd, groupPairs]
  | cons g rest ih =>
    obtain ⟨d', rs⟩ := g
    simp only [groupAdd]
    by_cases h : d' = d
    · subst h
      rw [if_pos rfl, groupPairs_cons, groupPairs_cons, List.map_append]
      simp only [List.map_cons, List.map_nil]
      have h1 : ((rs.map (fun r => (d', r)) ++ [(d', r)]) ++ groupPairs rest)
          = rs.map (fun r => (d', r)) ++ ([(d', r)] ++ groupPairs rest) :=
        List.append_assoc _ _ _
      have h2 : (rs.map (fun r => (d', r)) ++ ([(d', r)] ++ groupPairs rest)).Perm
          (rs.map (fun r => (d', r)) ++ (groupPairs rest ++ [(d', r)])) :=
        List.Perm.append_left _ List.perm_append_comm
      have h3 : rs.map (fun r => (d', r)) ++ (groupPairs rest ++ [(d', r)])
          = (rs.map (fun r => (d', r)) ++ groupPairs rest) ++ [(d', r)] :=
        (List.append_assoc _ _ _).symm
      rw [h1, ← h3]
      exact h2
    · rw [if_neg h, groupPairs_cons, groupPairs_cons]
      have h1 : (rs.map (fun r => (d', r)) ++ groupPairs (groupAdd rest d r)).Perm
          (rs.map (fun r => (d', r)) ++ (groupPairs rest ++ [(d, r)])) :=
        List.Perm.append_left _ ih
      have h2 : rs.map (fun r => (d', r)) ++ (groupPairs rest ++ [(d, r)])
          = (rs.map (fun r => (d', r)) ++ groupPairs rest) ++ [(d, r)] :=
        (List.append_assoc _ _ _).symm
      rw [← h2]
      exact h1

theorem pairUrls_groupAdd (gs : List (String × List DRecord)) (d : String)
    (r : DRecord) :
    (pairUrls (groupPairs (groupAdd gs d r))).Perm
      (pairUrls (groupPairs gs) ++ [r.url]) := by
  have h := (groupPairs_groupAdd gs d r).map (fun p => p.2.url)
  simpa [pairUrls] using h

theorem processChunkGo_spec (c : List DRecord) :
    ∀ gs seen,
      (∀ r ∈ c, r.url ≠ "" ∧ pyStrip r.url = r.url) →
      (pairUrls (groupPairs gs)).Nodup →
      (∀ u, u ∈ pairUrls (groupPairs gs) ↔ u ∈ seen) →
      (pairUrls (groupPairs (processChunkGo c gs seen))).Nodup ∧
      (∀ u, u ∈ pairUrls (groupPairs (processChunkGo c gs seen)) ↔
        u ∈ pairUrls (groupPairs gs) ∨ u ∈ c.map DRecord.url) := by
  induction c with
  | nil =>
    intro gs seen _ hnd _
    exact ⟨hnd, by simp [processChunkGo]⟩
  | cons r rest ih =>
    intro gs seen hc hnd hlink
    obtain ⟨hne, hstrip⟩ := hc r (by simp)
    have hcrest : ∀ x ∈ rest, x.url ≠ "" ∧ pyStrip x.url = x.url :=
      fun x hx => hc x (by simp [hx])
    have hred : processChunkGo (r :: rest) gs seen =
        if pyStrip r.url = "" ∨ pyStrip r.url ∈ seen
        then processChunkGo rest gs seen
        else processChunkGo rest (groupAdd gs (extractDomain (pyStrip r.url)) r)
          (pyStrip r.url :: seen) := rfl
    rw [hred, hstrip]
    by_cases hmem : r.url = "" ∨ r.url ∈ seen
    · rw [if_pos hmem]
      have hseen : r.url ∈ seen := hmem.resolve_left (fun h => hne h)
      obtain ⟨h1, h2⟩ := ih gs seen hcrest hnd hlink
      refine ⟨h1, fun u => ?_⟩
      rw [h2 u]
      simp only [List.map_cons, List.mem_cons]
      constructor
      · rintro (h | h)
        · exact Or.inl h
        · exact Or.inr (Or.inr h)
      · rintro (h | h | h)
        · exact Or.inl h
        · subst h; exact Or.inl ((hlink _).mpr hseen)
        · exact Or.inr h
    · rw [if_neg hmem]
      push_neg at hmem
      obtain ⟨_, hnotseen⟩ := hmem
      have hnotgs : r.url ∉ pairUrls (groupPairs gs) :=
        fun h => hnotseen ((hlink _).mp h)
      have hperm := pairUrls_groupAdd gs (extractDomain r.url) r
      have hnd' : (pairUrls (groupPairs (groupAdd gs (extractDomain r.url) r))).Nodup := by
        refine hperm.nodup_iff.mpr ?_
        have hps : (pairUrls (groupPairs gs) ++ [r.url]).Perm
            (r.url :: pairUrls (groupPairs gs)) := by
          have hpc := @List.perm_append_comm String (pairUrls (groupPairs gs)) [r.url]
          simpa using hpc
        refine hps.nodup_iff.mpr ?_
        exact List.nodup_cons.mpr ⟨hnotgs, hnd⟩
      have hlink' : ∀ u,
          u ∈ pairUrls (groupPairs (groupAdd gs (extractDomain r.url) r)) ↔
            u ∈ r.url :: seen := by
        intro u
        rw [hperm.mem_iff]
        simp only [List.mem_append, List.mem_singleton, List.mem_cons]
        rw [hlink u]
        tauto
      obtain ⟨h1, h2⟩ := ih (groupAdd gs (extractDomain r.url) r) (r.url :: seen)
        hcrest hnd' hlink'
      refine ⟨h1, fun u => ?_⟩
      rw [h2 u, hperm.mem_iff]
      simp only [List.mem_append, List.mem_singleton, List.map_cons, List.mem_cons]
      tauto

theorem processChunk_spec (c : List DRecord)
    (hc : ∀ r ∈ c, r.url ≠ "" ∧ pyStrip r.url = r.url) :
    (pairUrls (groupPairs (processChunk c))).Nodup ∧
    (∀ u, u ∈ pairUrls (groupPairs (processChunk c)) ↔ u ∈ c.map DRecord.url) := by
  have h := processChunkGo_spec c [] [] hc (by simp [groupPairs, pairUrls])
    (by simp [groupPairs, pairUrls])
  refine ⟨h.1, fun u => ?_⟩
  have := h.2 u
  simpa [groupPairs, pairUrls] using this

theorem groupTotal_groupAdd (gs : List (String × List DRecord)) (d : String)
    (r : DRecord) : groupTotal (groupAdd gs d r) = groupTotal gs + 1 := by
  induction gs with
  | nil => simp [groupAdd, groupTotal]
  | cons g rest ih =>
    obtain ⟨d', rs⟩ := g
    by_cases h : d' = d
    · subst h
      show groupTotal (if d' = d' then (d', rs ++ [r]) :: rest
            else (d', rs) :: groupAdd rest d' r) = _
      rw [if_pos rfl]
      simp [groupTotal]
      omega
    · show groupTotal (if d' = d then (d', rs ++ [r]) :: rest
            else (d', rs) :: groupAdd rest d r) = _
      rw [if_neg h]
      simp only [groupTotal, List.map_cons, List.sum_cons] at ih ⊢
      omega

theorem mergePairs_spec (gbd : Bool) (ps : List (String × DRecord)) :
    ∀ st : MergeSt,
      (st.seen.Nodup → (mergePairs gbd st ps).seen.Nodup) ∧
      (∀ u, u ∈ (mergePairs gbd st ps).seen ↔
        u ∈ st.seen ∨ (u ∈ pairUrls ps ∧ u ≠ "")) ∧
      ((mergePairs gbd st ps).seen.length + st.flat.length + groupTotal st.grouped
        = st.seen.length + (mergePairs gbd st ps).flat.length
          + groupTotal (mergePairs gbd st ps).grouped) ∧
      (gbd = false → (mergePairs gbd st ps).grouped = st.grouped) ∧
      (gbd = true → (mergePairs gbd st ps).flat = st.flat) := by
  induction ps with
  | nil =>
    intro st
    exact ⟨fun h => h, by simp [mergePairs, pairUrls], by simp [mergePairs],
      fun _ => rfl, fun _ => rfl⟩
  | cons p rest ih =>
    intro st
    obtain ⟨d, r⟩ := p
    have hred : mergePairs gbd st ((d, r) :: rest) =
        mergePairs gbd (mergeRecord gbd st d r) rest := rfl
    rw [hred]
    by_cases hcond : r.url ≠ "" ∧ r.url ∉ st.seen
    · have hstep : mergeRecord gbd st d r =
          { seen := r.url :: st.seen,
            grouped := if gbd then groupAdd st.grouped d r else st.grouped,
            flat := if gbd then st.flat else st.flat ++ [r] } := by
        unfold mergeRecord; rw [if_pos hcond]
      obtain ⟨ih1, ih2, ih3, ih4, ih5⟩ := ih (mergeRecord gbd st d r)
      refine ⟨?_, ?_, ?_, ?_, ?_⟩
      · intro hnd
        apply ih1
        rw [hstep]
        exact List.nodup_cons.mpr ⟨hcond.2, hnd⟩
      · intro u
        rw [ih2 u, hstep]
        simp only [List.mem_cons, pairUrls, List.map_cons]
        constructor
        · rintro ((h | h) | h)
          · subst h; exact Or.inr ⟨by simp, hcond.1⟩
          · exact Or.inl h
          · exact Or.inr ⟨by simp [h.1], h.2⟩
        · rintro (h | ⟨h1, h2⟩)
          · exact Or.inl (Or.inr h)
          · rcases h1 with h1 | h1
            · exact Or.inl (Or.inl h1)
            · exact Or.inr ⟨h1, h2⟩
      · have hlen : (mergeRecord gbd st d r).seen.length = st.seen.length + 1 := by
          rw [hstep]; simp
        have hflat : (mergeRecord gbd st d r).flat.length + groupTotal (mergeRecord gbd st d r).grouped
            = st.flat.length + groupTotal st.grouped + 1 := by
          rw [hstep]
          cases gbd with
          | false => simp <;> omega
          | true => simp [groupTotal_groupAdd] <;> omega
        omega
      · intro hgbd
        rw [ih4 hgbd, hstep]
        simp [hgbd]
      · intro hgbd
        rw [ih5 hgbd, hstep]
        simp [hgbd]
    · have hstep : mergeRecord gbd st d r = st := by
        unfold mergeRecord; rw [if_neg hcond]
      rw [hstep]
      obtain ⟨ih1, ih2, ih3, ih4, ih5⟩ := ih st
      refine ⟨ih1, ?_, ih3, ih4, ih5⟩
      intro u
      rw [ih2 u]
      simp only [pairUrls, List.map_cons, List.mem_cons]
      constructor
      · rintro (h | h)
        · exact Or.inl h
        · exact Or.inr ⟨Or.inr h.1, h.2⟩
      · rintro (h | ⟨h1, h2⟩)
        · exact Or.inl h
        · rcases h1 with h1 | h1
          · subst h1
            rcases not_and_or.mp hcond with h | h
            · exact absurd h2 (by simpa using h)
            · exact Or.inl (by simpa using h)
          · exact Or.inr ⟨h1, h2⟩

theorem mergeChunks_go (gbd : Bool) (chunks : List (List DRecord)) :
    ∀ st : MergeSt,
      (∀ r ∈ chunks.join, r.url ≠ "" ∧ pyStrip r.url = r.url) →
      (st.seen.Nodup → (chunks.foldl (fun s c => mergeChunk gbd s c) st).seen.Nodup) ∧
      (∀ u, u ∈ (chunks.foldl (fun s c => mergeChunk gbd s c) st).seen ↔
        u ∈ st.seen ∨ u ∈ chunks.join.map DRecord.url) ∧
      ((chunks.foldl (fun s c => mergeChunk gbd s c) st).seen.length
          + st.flat.length + groupTotal st.grouped
        = st.seen.length
          + (chunks.foldl (fun s c => mergeChunk gbd s c) st).flat.length
          + groupTotal (chunks.foldl (fun s c => mergeChunk gbd s c) st).grouped) ∧
      (gbd = false →
        (chunks.foldl (fun s c => mergeChunk gbd s c) st).grouped = st.grouped) ∧
      (gbd = true →
        (chunks.foldl (fun s c => mergeChunk gbd s c) st).flat = st.flat) := by
  induction chunks with
  | nil =>
    intro st _
    exact ⟨fun h => h, by simp, by simp, fun _ => rfl, fun _ => rfl⟩
  | cons c rest ih =>
    intro st hurls
    have hc : ∀ r ∈ c, r.url ≠ "" ∧ pyStrip r.url = r.url :=
      fun r hr => hurls r (by simp [List.join, hr])
    have hrest : ∀ r ∈ rest.join, r.url ≠ "" ∧ pyStrip r.url = r.url :=
      fun r hr => hurls r (by simp [List.join, hr])
    obtain ⟨hcnd, hcmem⟩ := processChunk_spec c hc
    obtain ⟨m1, m2, m3, m4, m5⟩ := mergePairs_spec gbd (groupPairs (processChunk c)) st
    rw [show mergePairs gbd st (groupPairs (processChunk c)) = mergeChunk gbd st c
      from rfl] at m1 m2 m3 m4 m5
    obtain ⟨i1, i2, i3, i4, i5⟩ := ih (mergeChunk gbd st c) hrest
    have hfold : (c :: rest).foldl (fun s c => mergeChunk gbd s c) st =
        rest.foldl (fun s c => mergeChunk gbd s c) (mergeChunk gbd st c) := rfl
    rw [hfold]
    refine ⟨fun hnd => i1 (m1 hnd), ?_, ?_, ?_, ?_⟩
    · intro u
      rw [i2 u]
      show _ ↔ u ∈ st.seen ∨ u ∈ (c ++ rest.join).map DRecord.url
      rw [List.map_append, List.mem_append]
      have : u ∈ (mergeChunk gbd st c).seen ↔
          u ∈ st.seen ∨ (u ∈ pairUrls (groupPairs (processChunk c)) ∧ u ≠ "") :=
        m2 u
      rw [this, hcmem u]
      constructor
      · rintro ((h | ⟨h1, _⟩) | h)
        · exact Or.inl h
        · exact Or.inr (Or.inl h1)
        · exact Or.inr (Or.inr h)
      · rintro (h | h | h)
        · exact Or.inl (Or.inl h)
        · refine Or.inl (Or.inr ⟨h, ?_⟩)
          obtain ⟨r, hr, hru⟩ := List.mem_map.mp h
          exact hru ▸ (hc r hr).1
        · exact Or.inr h
    · omega
    · intro hgbd; rw [i4 hgbd, m4 hgbd]
    · intro hgbd; rw [i5 hgbd, m5 hgbd]

theorem runDedupe_count (gbd : Bool) (seed : List String)
    (chunks : List (List DRecord)) (hseed : seed.Nodup)
    (hurls : ∀ r ∈ chunks.join, r.url ≠ "" ∧ pyStrip r.url = r.url) :
    (runDedupe gbd seed chunks).flat.length
      + groupTotal (runDedupe gbd seed chunks).grouped
      = distinctNewCount seed chunks.join := by
  obtain ⟨g1, g2, g3, _, _⟩ := mergeChunks_go gbd chunks ⟨seed, [], []⟩ hurls
  have hfin : runDedupe gbd seed chunks =
      chunks.foldl (fun s c => mergeChunk gbd s c) ⟨seed, [], []⟩ := rfl
  rw [hfin]
  set fin := chunks.foldl (fun s c => mergeChunk gbd s c)
    (⟨seed, [], []⟩ : MergeSt) with hfindef
  have hnd : fin.seen.Nodup := g1 hseed
  have hmem : ∀ u, u ∈ fin.seen ↔ u ∈ seed ∨ u ∈ chunks.join.map DRecord.url := g2
  have hcount : fin.seen.length = seed.length + fin.flat.length + groupTotal fin.grouped := by
    have h3 := g3
    have h0 : ({ seen := seed, grouped := [], flat := [] } : MergeSt).flat.length = 0 := rfl
    have h1 : groupTotal ({ seen := seed, grouped := [], flat := [] } : MergeSt).grouped = 0 := rfl
    have h2 : ({ seen := seed, grouped := [], flat := [] } : MergeSt).seen.length = seed.length := rfl
    omega
  -- pass to finsets
  have hU : fin.seen.toFinset = seed.toFinset ∪ (chunks.join.map DRecord.url).toFinset := by
    apply Finset.ext
    intro u
    simp only [List.mem_toFinset, Finset.mem_union]
    exact hmem u
  have hlenSeen : fin.seen.toFinset.card = fin.seen.length :=
    List.toFinset_card_of_nodup hnd
  have hlenSeed : seed.toFinset.card = seed.length :=
    List.toFinset_card_of_nodup hseed
  have hDN : distinctNewCount seed chunks.join =
      ((chunks.join.map DRecord.url).toFinset \ seed.toFinset).card := by
    unfold distinctNewCount
    have hnodupL : (((chunks.join.map DRecord.url).dedup).filter
        (fun u => u ∉ seed)).Nodup :=
      List.Nodup.filter _ (List.nodup_dedup _)
    rw [← List.toFinset_card_of_nodup hnodupL]
    congr 1
    apply Finset.ext
    intro u
    simp only [List.mem_toFinset, List.mem_filter, List.mem_dedup, Finset.mem_sdiff,
      decide_eq_true_eq]
  have hsub : seed.toFinset ⊆ fin.seen.toFinset := by
    rw [hU]; exact Finset.subset_union_left
  have hcard : (fin.seen.toFinset \ seed.toFinset).card + seed.toFinset.card
      = fin.seen.toFinset.card :=
    Finset.card_sdiff_add_card_eq_card hsub
  have hsd : fin.seen.toFinset \ seed.toFinset
      = (chunks.join.map DRecord.url).toFinset \ seed.toFinset := by
    rw [hU]
    apply Finset.ext
    intro u
    simp only [Finset.mem_sdiff, Finset.mem_union]
    tauto
  rw [hsd] at hcard
  rw [hDN]
  omega

/-- Single-file mode: the grouped accumulator stays empty. -/
theorem runDedupe_single_grouped (seed : List String) (chunks : List (List DRecord))
    (hurls : ∀ r ∈ chunks.join, r.url ≠ "" ∧ pyStrip r.url = r.url) :
    (runDedupe false seed chunks).grouped = [] := by
  obtain ⟨_, _, _, g4, _⟩ := mergeChunks_go false chunks ⟨seed, [], []⟩ hurls
  exact g4 rfl

/-- Grouped mode: the flat accumulator stays empty. -/
theorem runDedupe_grouped_flat (seed : List String) (chunks : List (List DRecord))
    (hurls : ∀ r ∈ chunks.join, r.url ≠ "" ∧ pyStrip r.url = r.url) :
    (runDedupe true seed chunks).flat = [] := by
  obtain ⟨_, _, _, _, g5⟩ := mergeChunks_go true chunks ⟨seed, [], []⟩ hurls
  exact g5 rfl

/-! ## Flattened document trees

A parsed HTML document is modelled as a list of nodes in document
(preorder) order; a node carries its tree position as a path of child
indices, so `p.path` being a strict prefix of `q.path` is the
ancestor/descendant relation and the list order is document order.  Text
nodes have tag `"#text"` and carry their text in `txt`; element nodes carry
their attributes.  XPath queries used by the source compile to list
filters over this representation. -/

structure HtmlNode where
  path : List Nat
  tag : String
  attrs : List (String × String)
  txt : String
deriving DecidableEq, Repr

abbrev Page := List HtmlNode

namespace HtmlNode

def attrOpt (m : HtmlNode) (k : String) : Option String :=
  (m.attrs.find? (fun p => p.1 = k)).map (fun p => p.2)

def attrD (m : HtmlNode) (k : String) : String := (m.attrOpt k).getD ""

def cls (m : HtmlNode) : String := m.attrD "class"

def idA (m : HtmlNode) : String := m.attrD "id"

def isTextN (m : HtmlNode) : Bool := m.tag == "#text"

end HtmlNode

/-- Source `q` is a strict descendant of `n` (`.//` axis). -/
def strictUnder (n q : HtmlNode) : Bool :=
  n.path.isPrefixOf q.path && !(n.path == q.path)

/-- XPath `contains(a, b)`: substring test. -/
def containsSub (s pat : String) : Bool :=
  (List.range (s.data.length + 1)).any (fun i => pat.data.isPrefixOf (s.data.drop i))

def endsWithStr (s pat : String) : Bool := pat.data.isSuffixOf s.data

/-! ### `GenericAutoParser._extract_body_html`: candidate scoring -/

/-- The query `.//p//text()` on `n`, space-joined over the stripped
non-empty texts as in the source. -/
def pTextsUnder (pg : Page) (n : HtmlNode) : List String :=
  (pg.filter (fun m => m.isTextN &&
    pg.any (fun q => q.tag == "p" && strictUnder n q && strictUnder q m))).map
    (fun m => m.txt)

def textLenOf (pg : Page) (n : HtmlNode) : Nat :=
  (pyJoinSp (pTextsUnder pg n)).length

def countDesc (pg : Page) (n : HtmlNode) (pred : HtmlNode → Bool) : Nat :=
  (pg.filter (fun m => strictUnder n m && pred m)).length

def isNavLike (m : HtmlNode) : Bool :=
  m.tag == "nav" || m.tag == "aside" || m.attrD "role" == "navigation"

/-- The per-candidate score of `_extract_body_html`. -/
def nodeScore (pg : Page) (n : HtmlNode) : Int :=
  let tl := textLenOf pg n
  let base : Int := (tl : Int) + 100 * (countDesc pg n (fun m => m.tag == "p") : Int)
    - 50 * (countDesc pg n (fun m => m.tag == "a") : Int)
    - 150 * (countDesc pg n isNavLike : Int)
    - 10 * (countDesc pg n (fun m => m.tag == "li") : Int)
  if tl < 150 then base - 1000 else base

/-- Source `//article`. -/
def candXp1 (pg : Page) : List HtmlNode := pg.filter (fun m => m.tag == "article")

/-- Source query under `//main`: descendant elements that are `article`
or whose class or id contains `content`. -/
def candXp2 (pg : Page) : List HtmlNode :=
  pg.filter (fun m => !m.isTextN &&
    (m.tag == "article" || containsSub m.cls "content" || containsSub m.idA "content") &&
    pg.any (fun q => q.tag == "main" && strictUnder q m))

/-- Source query: `div` elements whose class contains `article`, `post`,
`entry` or `story`, or whose id contains `article` or `post`. -/
def candXp3 (pg : Page) : List HtmlNode :=
  pg.filter (fun m => m.tag == "div" &&
    (containsSub m.cls "article" || containsSub m.cls "post" ||
     containsSub m.cls "entry" || containsSub m.cls "story" ||
     containsSub m.idA "article" || containsSub m.idA "post"))

/-- Candidate collection: the three container XPaths in order; if all of
them are empty, fall back to `//div | //section | //main | //article`. -/
def candidatesOf (pg : Page) : List HtmlNode :=
  let cs := candXp1 pg ++ candXp2 pg ++ candXp3 pg
  if cs = [] then
    pg.filter (fun m =>
      m.tag == "div" || m.tag == "section" || m.tag == "main" || m.tag == "article")
  else cs

/-- One iteration of the best-node loop: strict improvement only. -/
def pbStep (pg : Page) (acc : Option (HtmlNode × Int)) (n : HtmlNode) :
    Option (HtmlNode × Int) :=
  match acc with
  | none => some (n, nodeScore pg n)
  | some (b, bs) =>
    if nodeScore pg n > bs then some (n, nodeScore pg n) else some (b, bs)

/-- The best-node loop: strict improvement, first maximum wins. -/
def pickBest (pg : Page) (l : List HtmlNode) : Option (HtmlNode × Int) :=
  l.foldl (pbStep pg) none

/-- Source `//p[not(ancestor::nav) and not(ancestor::aside)]`. -/
def fallbackParas (pg : Page) : List HtmlNode :=
  pg.filter (fun m => m.tag == "p" &&
    !(pg.any (fun q => (q.tag == "nav" || q.tag == "aside") && strictUnder q m)))

/-- The subtree rooted at `n`: the serialized fragment for a selected node. -/
def subtreeOf (pg : Page) (n : HtmlNode) : Page :=
  pg.filter (fun m => n.path.isPrefixOf m.path)

/-- Source `etree.Element("div")`, the synthesized wrapper. -/
def synthWrapper : HtmlNode := ⟨[], "div", [], ""⟩

/-- The fallback container: a fresh `div` wrapping every collected
paragraph subtree in document order. -/
def synthFrag (pg : Page) (paras : List HtmlNode) : Page :=
  synthWrapper :: paras.flatMap (fun p => subtreeOf pg p)

/-- Source `GenericAutoParser._extract_body_html`.  Returns the selected fragment
(`None` models Python `None`); serialization to a string is external. -/
def extractBodyHtml (pg : Page) : Option Page :=
  let paras := fallbackParas pg
  match pickBest pg (candidatesOf pg) with
  | none => if paras ≠ [] then some (synthFrag pg paras) else none
  | some (b, bs) =>
    if bs < 500 then
      if paras ≠ [] then some (synthFrag pg paras) else some (subtreeOf pg b)
    else some (subtreeOf pg b)

/-! ### `OBVIOUS_EXCLUDES` cleaning and core-text extraction -/

def isObviousExclude (m : HtmlNode) : Bool :=
  m.tag == "script" || m.tag == "style" ||
  containsSub m.cls "ads" || containsSub m.cls "advertisement" ||
  m.tag == "aside" || m.tag == "nav" ||
  (m.tag == "footer" && containsSub m.cls "footer") ||
  (m.tag == "div" && containsSub m.cls "social-share") ||
  (m.tag == "div" && containsSub m.cls "newsletter") ||
  (m.tag == "div" && containsSub m.cls "popup") ||
  (m.tag == "div" && containsSub m.cls "modal") ||
  m.tag == "iframe" ||
  containsSub m.cls "related" || containsSub m.cls "see-also"

/-- Source `GenericAutoParser._clean_html`: remove every matched node (with its
subtree).  The fragment root has no parent, so `parent.remove` can never
drop it. -/
def cleanFragment (frag : Page) : Page :=
  match frag with
  | [] => []
  | root :: _ =>
    frag.filter (fun m => !(frag.any (fun q =>
      !(q == root) && isObviousExclude q && q.path.isPrefixOf m.path)))

def coreTags : List String := ["p", "h2", "h3", "h4", "h5", "h6", "li"]

/-- Source `GenericAutoParser._core_text_only`. -/
def coreTextOnly (frag : Page) : String :=
  pyJoinSp ((frag.filter (fun m => m.isTextN &&
    frag.any (fun q => coreTags.contains q.tag && strictUnder q m))).map
    (fun m => m.txt))

/-! ### `GenericAutoParser` URL admission filter

The compiled deny / article regexes of `generic_auto.py`, compiled pattern
by pattern into decidable string predicates (all patterns are applied
case-insensitively, modelled by lowering the URL first):

* deny 1: `/login|/signin|/signup|/register|/account|/cart|/checkout`
* deny 2: `\.(jpg|jpeg|png|gif|svg|css|js|ico|mp4|mp3|zip|rar|7z|pdf)(\?|$)`
* allow 1: `/\d{4}/\d{1,2}/\d{1,2}/`
* allow 2: `/\d{4}/\d{1,2}/`
* allow 3: `/[a-z0-9-]+-\d{6,}(?:/|$)`
* allow 4: `/(news|article|…|interview)s?(?:/|$|-)`
* allow 5: `/[a-z0-9-]{30,}(?:/|$)`
-/

def lowerStr (s : String) : String := String.mk (s.data.map Char.toLower)

def denyWords : List String :=
  ["/login", "/signin", "/signup", "/register", "/account", "/cart", "/checkout"]

def denyExts : List String :=
  ["jpg", "jpeg", "png", "gif", "svg", "css", "js", "ico", "mp4", "mp3",
   "zip", "rar", "7z", "pdf"]

def denyMatch (u : String) : Bool :=
  denyWords.any (fun w => containsSub u w) ||
  denyExts.any (fun e =>
    containsSub u ("." ++ e ++ "?") || endsWithStr u ("." ++ e))

/-- Source `\d{1,2}/` with regex backtracking: prefer two digits, fall back to
one; the trailing `/` is consumed.  Returns the matched digits and the
rest after the `/`. -/
def matchMD : List Char → Option (String × List Char)
  | d1 :: rest1 =>
    if d1.isDigit then
      match rest1 with
      | d2 :: '/' :: rest2 =>
        if d2.isDigit then some (String.mk [d1, d2], rest2)
        else if d2 == '/' then some (String.mk [d1], '/' :: rest2)
        else none
      | '/' :: rest2 => some (String.mk [d1], rest2)
      | _ => none
    else none
  | [] => none

/-- Source `\d{4}/\d{1,2}/\d{1,2}/` anchored at the position after a `/`. -/
def dated1At (cs : List Char) : Bool :=
  match cs with
  | a :: b :: c :: d :: '/' :: rest =>
    a.isDigit && b.isDigit && c.isDigit && d.isDigit &&
    (match matchMD rest with
     | some (_, rest2) => (matchMD rest2).isSome
     | none => false)
  | _ => false

/-- Source `\d{4}/\d{1,2}/` anchored at the position after a `/`. -/
def dated2At (cs : List Char) : Bool :=
  match cs with
  | a :: b :: c :: d :: '/' :: rest =>
    a.isDigit && b.isDigit && c.isDigit && d.isDigit && (matchMD rest).isSome
  | _ => false

def isSlugChar (c : Char) : Bool := ('a' ≤ c && c ≤ 'z') || c.isDigit || c == '-'

/-- Source `[a-z0-9-]+-\d{6,}(?:/|$)` anchored after a `/`: the match must cover
a whole maximal slug-character run ending in at least six digits preceded
by a dash, with a `/` or the end of the string after the run. -/
def pat3At (cs : List Char) : Bool :=
  let run := cs.takeWhile isSlugChar
  let term := cs.drop run.length
  let dsuf := run.reverse.takeWhile Char.isDigit
  (term.isEmpty || term.head? == some '/') &&
  decide (6 ≤ dsuf.length) &&
  ((run.reverse.drop dsuf.length).head? == some '-') &&
  decide (dsuf.length + 2 ≤ run.length)

/-- Source `[a-z0-9-]{30,}(?:/|$)` anchored after a `/`. -/
def pat5At (cs : List Char) : Bool :=
  let run := cs.takeWhile isSlugChar
  let term := cs.drop run.length
  decide (30 ≤ run.length) && (term.isEmpty || term.head? == some '/')

/-- Source `re.search` for a pattern anchored right after a `/`. -/
def searchSlash (p : List Char → Bool) : List Char → Bool
  | [] => false
  | '/' :: rest => p rest || searchSlash p rest
  | _ :: rest => searchSlash p rest

def pat4Words : List String :=
  ["news", "article", "story", "post", "blog", "recipe", "how-to", "howto",
   "guide", "guides", "feature", "features", "review", "opinion", "interview"]

/-- Source `/(news|…|interview)s?(?:/|$|-)`. -/
def pat4Match (u : String) : Bool :=
  pat4Words.any (fun w =>
    [w, w ++ "s"].any (fun f =>
      containsSub u ("/" ++ f ++ "/") || containsSub u ("/" ++ f ++ "-") ||
      endsWithStr u ("/" ++ f)))

def allowMatch (u : String) : Bool :=
  searchSlash dated1At u.data || searchSlash dated2At u.data ||
  searchSlash pat3At u.data || pat4Match u || searchSlash pat5At u.data

/-- Source `GenericAutoParser._is_article_url`: deny first, then allow, default
reject. -/
def isArticleUrl (url : String) : Bool :=
  if denyMatch (lowerStr url) then false
  else if allowMatch (lowerStr url) then true
  else false

example : isArticleUrl "https://ex.com/login" = false := by decide
example : isArticleUrl "https://ex.com/news/some-story" = true := by decide
example : isArticleUrl "https://ex.com/login/news/some-story" = false := by decide
example : isArticleUrl "https://ex.com/about-us" = false := by decide
example : isArticleUrl "https://ex.com/2021/07/16/title" = true := by decide
example : isArticleUrl "https://ex.com/picture.JPG" = false := by decide

/-! ### `GenericAutoParser` metadata extraction -/

/-- First candidate that is non-empty after stripping, stripped
(`for t in candidates: if t and t.strip(): return t.strip()`). -/
def firstGoodS (cands : List (Option String)) : Option String :=
  cands.findSome? (fun o => o.bind (fun t =>
    if pyStrip t ≠ "" then some (pyStrip t) else none))

/-- Source `//TAG//text()` → `.get()`: the first text node under an element with
the given tag. -/
def firstTextWithAnc (pg : Page) (tag : String) : Option String :=
  ((pg.filter (fun m => m.isTextN &&
    pg.any (fun q => q.tag == tag && strictUnder q m))).map (fun m => m.txt)).head?

/-- Source `//TAG/text()` → `.get()`: the first direct text child of an element
with the given tag. -/
def firstChildText (pg : Page) (tag : String) : Option String :=
  ((pg.filter (fun m => m.isTextN && !(m.path == ([] : List Nat)) &&
    pg.any (fun q => q.tag == tag && q.path == m.path.dropLast))).map
    (fun m => m.txt)).head?

/-- The query `//meta[@KEY=VAL]/@content` → `.get()`. -/
def metaContent (pg : Page) (key val : String) : Option String :=
  (pg.filterMap (fun m =>
    if m.tag == "meta" && m.attrOpt key == some val then m.attrOpt "content"
    else none)).head?

/-- Source `//TAG/@ATTR` → `.get()`. -/
def firstAttrOf (pg : Page) (tag attrName : String) : Option String :=
  (pg.filterMap (fun m =>
    if m.tag == tag then m.attrOpt attrName else none)).head?

/-- Source `GenericAutoParser._extract_title`. -/
def extractTitle (pg : Page) : Option String :=
  firstGoodS
    [firstTextWithAnc pg "h1",
     firstChildText pg "title",
     metaContent pg "property" "og:title",
     metaContent pg "name" "twitter:title",
     metaContent pg "name" "parsely-title"]

/-- Source `re.sub(r"^by\s+", "", t, flags=re.I)`. -/
def stripByPref (t : String) : String :=
  match t.data with
  | c1 :: c2 :: c3 :: rest =>
    if (c1 == 'b' || c1 == 'B') && (c2 == 'y' || c2 == 'Y') && isPySpace c3
    then String.mk ((c3 :: rest).dropWhile isPySpace) else t
  | _ => t

/-- The byline query: text under elements whose class contains `author`
or `byline` (descendant-or-self text axis). -/
def bylineTexts (pg : Page) : List String :=
  (pg.filter (fun m => m.isTextN && pg.any (fun q =>
    (containsSub q.cls "author" || containsSub q.cls "byline") &&
    q.path.isPrefixOf m.path))).map (fun m => m.txt)

/-- Source `GenericAutoParser._extract_author`. -/
def extractAuthor (pg : Page) : Option String :=
  let metaTexts :=
    match metaContent pg "name" "author" with
    | some s => if s ≠ "" then [s] else []
    | none => []
  (metaTexts ++ bylineTexts pg).findSome? (fun s =>
    let t := pyStrip s
    if t.length < 3 then none
    else
      let t2 := stripByPref t
      if t2 ≠ "" then some t2 else none)

/-- The `/(20\d{2})/(\d{1,2})/(\d{1,2})/` URL-date fallback, with its three
capture groups. -/
def tryDateAt (cs : List Char) : Option (String × String × String) :=
  match cs with
  | '2' :: '0' :: d3 :: d4 :: '/' :: rest =>
    if d3.isDigit && d4.isDigit then
      match matchMD rest with
      | some (mo, rest2) =>
        match matchMD rest2 with
        | some (da, _) => some (String.mk ['2', '0', d3, d4], mo, da)
        | none => none
      | none => none
    else none
  | _ => none

def findUrlDate : List Char → Option (String × String × String)
  | [] => none
  | '/' :: rest =>
    match tryDateAt rest with
    | some r => some r
    | none => findUrlDate rest
  | _ :: rest => findUrlDate rest

/-- Source `GenericAutoParser._extract_post_date`. -/
def extractPostDate (url : String) (pg : Page) : Option String :=
  match firstGoodS
    [metaContent pg "property" "article:published_time",
     firstAttrOf pg "time" "datetime",
     firstChildText pg "time"] with
  | some s => some s
  | none =>
    (findUrlDate url.data).map (fun ymd =>
      ymd.1 ++ "-" ++ ymd.2.1 ++ "-" ++ ymd.2.2)

/-- Source `GenericAutoParser._extract_tags`. -/
def extractTags (pg : Page) : List String :=
  let sel := pg.filter (fun m => m.isTextN && !(m.path == ([] : List Nat)) &&
    (pg.any (fun a => a.tag == "a" && a.path == m.path.dropLast &&
       (containsSub (a.attrD "href") "tag" || containsSub a.cls "tag" ||
        containsSub a.cls "breadcrumb")) ||
     pg.any (fun a => a.tag == "a" && a.path == m.path.dropLast &&
       !(a.path == ([] : List Nat)) &&
       pg.any (fun li => li.tag == "li" && li.path == a.path.dropLast &&
         !(li.path == ([] : List Nat)) &&
         pg.any (fun ul => ul.tag == "ul" && containsSub ul.cls "breadcrumb" &&
           ul.path == li.path.dropLast)))))
  ((sel.map (fun m => m.txt)).map pyStrip).filter (fun t => t ≠ "")

/-- Source `GenericAutoParser._extract_lang`. -/
def extractLang (pg : Page) : String :=
  let l := ((pg.filterMap (fun m =>
    if m.tag == "html" then m.attrOpt "lang" else none)).head?).getD ""
  let l0 := String.mk (l.data.takeWhile (fun c => c ≠ '-'))
  if l0 = "" then "en" else l0

/-- Source `GenericAutoParser._domain`: `urlparse(url).netloc.replace("www.", "")`
(Python `replace` removes every occurrence). -/
def removeWWWAll : List Char → List Char
  | 'w' :: 'w' :: 'w' :: '.' :: rest => removeWWWAll rest
  | c :: rest => c :: removeWWWAll rest
  | [] => []

def gpDomain (url : String) : String :=
  String.mk (removeWWWAll (pyNetloc url).data)

structure GArticle where
  url : String
  sourceDomain : String
  title : String
  tags : List String
  author : Option String
  postDate : Option String
  body : Page
  bodyType : String
  lang : String
deriving DecidableEq, Repr

/-- Source `GenericAutoParser.parse_item`: URL admission, title and body
extraction, `OBVIOUS_EXCLUDES` cleaning, the core-text length gate, and
item assembly.  `minBodyChars` is the constructor default `200`. -/
def genericParseItem (minBodyChars : Nat) (url : String) (pg : Page) :
    Option GArticle :=
  if isArticleUrl url = false then none
  else
    match extractTitle pg, extractBodyHtml pg with
    | some title, some frag =>
      let cleaned := cleanFragment frag
      if cleaned = [] ∨ (coreTextOnly cleaned).length < minBodyChars then none
      else
        some { url := url, sourceDomain := gpDomain url, title := pyStrip title,
               tags := extractTags pg, author := extractAuthor pg,
               postDate := extractPostDate url pg, body := cleaned,
               bodyType := "html", lang := extractLang pg }
    | _, _ => none

/-! ## `ArticleSpider.parse_item` (the extraction dispatcher)

The per-site configuration carries arbitrary XPath strings; those are
shallow-embedded as query functions over the page, and
`clean_html_fragment` under the config exclude list as a string
transformer.  `custom_parser`, when present, is dispatched to exclusively
and its output returned unconditionally. -/

structure SArticle where
  url : String
  sourceDomain : String
  title : String
  tags : List String
  author : Option String
  postDate : Option String
  body : String
  bodyType : String
  lang : String
deriving DecidableEq, Repr

structure DomainConfigM where
  customParser : Option (String → Page → Option SArticle)
  titleSel : Page → Option String
  tagsSel : Option (Page → List String)
  authorSel : Option (Page → Option String)
  dateSel : Option (Page → Option String)
  bodySel : Page → Option String
  cleanBody : String → String
  lang : String

/-- Source `ArticleSpider.parse_item` for a page whose domain has a config. -/
def spiderParseItem (cfg : DomainConfigM) (domain url : String) (pg : Page) :
    Option SArticle :=
  match cfg.customParser with
  | some f => f url pg
  | none =>
    match cfg.titleSel pg with
    | none => none
    | some t0 =>
      if pyStrip t0 = "" then none
      else
        match cfg.bodySel pg with
        | none => none
        | some bodyHtml =>
          let cleaned := cfg.cleanBody bodyHtml
          if cleaned = "" ∨ (pyStrip cleaned).length < 50 then none
          else
            some { url := url, sourceDomain := domain, title := pyStrip t0,
                   tags := (match cfg.tagsSel with
                            | some f => ((f pg).map pyStrip).filter (fun t => t ≠ "")
                            | none => []),
                   author := (match cfg.authorSel with
                              | some f => (f pg).bind (fun s =>
                                  if s ≠ "" then some (pyStrip s) else none)
                              | none => none),
                   postDate := (match cfg.dateSel with
                                | some f => f pg
                                | none => none),
                   body := cleaned, bodyType := "html", lang := cfg.lang }

/-! ### Concrete pages used as test inputs -/

def exText : String :=
  "Lorem ipsum dolor sit amet consectetur adipiscing elit sed do eiusmod tempor."

/-- A content page: an `h1` title and an `article` with four paragraphs of
real text. -/
def goodPage : Page :=
  [⟨[0], "h1", [], ""⟩,
   ⟨[0, 0], "#text", [], "Great Recipe Story"⟩,
   ⟨[1], "article", [], ""⟩,
   ⟨[1, 0], "p", [], ""⟩, ⟨[1, 0, 0], "#text", [], exText⟩,
   ⟨[1, 1], "p", [], ""⟩, ⟨[1, 1, 0], "#text", [], exText⟩,
   ⟨[1, 2], "p", [], ""⟩, ⟨[1, 2, 0], "#text", [], exText⟩,
   ⟨[1, 3], "p", [], ""⟩, ⟨[1, 3, 0], "#text", [], exText⟩]

def goodUrl : String := "https://www.ex.com/news/tasty"

/-- A page with no paragraphs at all: one plain `div` containing a link. -/
def lowPage : Page :=
  [⟨[0], "div", [], ""⟩,
   ⟨[0, 0], "a", [], ""⟩,
   ⟨[0, 0, 0], "#text", [], "Click"⟩]

set_option maxRecDepth 4000 in
example : (genericParseItem 200 goodUrl goodPage).isSome = true := by decide
example : extractBodyHtml lowPage = some lowPage := by decide
example : fallbackParas lowPage = [] := by decide

/-! ## Claim theorems -/

theorem dropFragment_idem (u : String) :
    dropFragment (dropFragment u) = dropFragment u :=
  dropFragment_eq_self _ (dropFragment_no_hash u)

theorem normalizeUrl_dropFragment (u : String) :
    normalizeUrl (dropFragment u) = normalizeUrl u := by
  unfold normalizeUrl
  rw [dropFragment_idem u]

/-- C10: URL normalization in the cleaning pipeline removes everything from
the first `#` onward (only the pre-fragment part matters and no `#`
survives); when the parsed path of the URL is not `/` *and that path itself ends
with a slash*, trailing slashes are stripped from the URL; normalization is
idempotent; and `process_item` stores the normalized URL and computes the
content hash afterwards, from the cleaned title and the first 1000
characters of the cleaned body. -/
theorem cleaning_normalize_url_spec :
    (∀ u : String, normalizeUrl u = normalizeUrl (dropFragment u) ∧
      '#' ∉ (normalizeUrl u).data) ∧
    (∀ u : String, pyPath (dropFragment u) ≠ "/" →
      endsWithSlash (pyPath (dropFragment u)) = true →
      normalizeUrl u = rstripSlashes (dropFragment u) ∧
        endsWithSlash (normalizeUrl u) = false) ∧
    (∀ u : String, normalizeUrl (normalizeUrl u) = normalizeUrl u) ∧
    (∀ (digest cleanF : String → String) (it : CleanItem),
      (cleaningProcessItem digest cleanF it).url = normalizeUrl it.url ∧
      (cleaningProcessItem digest cleanF it).contentHash =
        digest (cleanText it.title ++
          String.mk ((if it.bodyType = "html" then cleanF it.body
                      else it.body).data.take 1000))) := by
  refine ⟨?_, ?_, normalizeUrl_idem, ?_⟩
  · intro u
    exact ⟨(normalizeUrl_dropFragment u).symm, normalizeUrl_no_hash u⟩
  · intro u h1 h2
    exact normalizeUrl_strips u h1 h2
  · intro digest cleanF it
    exact ⟨rfl, rfl⟩

theorem cleaning_normalize_url_spec_witness :
    (pyPath (dropFragment "http://ex.com/a/") ≠ "/" ∧
     endsWithSlash (pyPath (dropFragment "http://ex.com/a/")) = true) ∧
    (normalizeUrl "http://ex.com/a/" = rstripSlashes (dropFragment "http://ex.com/a/") ∧
     endsWithSlash (normalizeUrl "http://ex.com/a/") = false) :=
  ⟨⟨by decide, by decide⟩,
   cleaning_normalize_url_spec.2.1 "http://ex.com/a/" (by decide) (by decide)⟩

/-- C10 counterexample: for `http://ex.com/a?q=/` the parsed path is `/a`
(not `/`), yet the URL keeps its trailing slash, because the code only
strips when the *path* itself ends with `/`. -/
theorem cleaning_normalize_url_cex :
    pyPath "http://ex.com/a?q=/" = "/a" ∧
    normalizeUrl "http://ex.com/a?q=/" = "http://ex.com/a?q=/" ∧
    endsWithSlash (normalizeUrl "http://ex.com/a?q=/") = true := by
  refine ⟨by decide, ?_, by decide⟩
  decide

/-- C2: for every site, any interleaving of record submissions and buffer
flushes followed by shutdown appends exactly the submitted lines for that
site to the file of that site — no losses, no duplicates, in submission
order. -/
theorem writer_exactly_once_in_order :
    ∀ (f0 : String → List String) (evts : List WEvent) (d : String),
      (wClose (wRun (initialW f0) evts)).files d = f0 d ++ submittedTo d evts := by
  intro f0 evts d
  show (wRun (initialW f0) evts).files d ++ (wRun (initialW f0) evts).buffers d = _
  rw [wRun_files_buffers]
  simp [initialW]

/-- C6: when the file write of a flush fails, the drained lines go back at
the front of the buffer of that site (in their original order, ahead of any
lines submitted during the write), the byte counter is restored, no file
changes, and the failure is propagated (`false` = exception re-raised). -/
theorem flush_failure_restores_buffer (st : WState) (d : String)
    (arrivals : List String) (hne : st.buffers d ≠ []) :
    (wFlushAttempt false arrivals st d).2 = false ∧
    (wFlushAttempt false arrivals st d).1.files = st.files ∧
    (wFlushAttempt false arrivals st d).1.buffers d = st.buffers d ++ arrivals ∧
    (wFlushAttempt false arrivals st d).1.bufferSizes d =
      (arrivals.map String.length).sum + st.bufferSizes d ∧
    (∀ d', d' ≠ d → (wFlushAttempt false arrivals st d).1.buffers d' = st.buffers d') ∧
    (arrivals = [] →
      (wFlushAttempt false arrivals st d).1.buffers = st.buffers) := by
  have hred : wFlushAttempt false arrivals st d =
      ({ st with buffers := updF st.buffers d (st.buffers d ++ arrivals),
                 bufferSizes := updF st.bufferSizes d
                   ((arrivals.map String.length).sum + st.bufferSizes d) }, false) := by
    unfold wFlushAttempt
    rw [if_neg hne]
    simp
  rw [hred]
  refine ⟨rfl, rfl, by simp [updF], by simp [updF], ?_, ?_⟩
  · intro d' hd'
    simp [updF, hd']
  · intro ha
    subst ha
    funext x
    by_cases hx : x = d
    · subst hx; simp [updF]
    · simp [updF, hx]

theorem flush_failure_restores_buffer_witness :
    (wFlushAttempt false []
      ⟨fun _ => ["l1", "l2"], fun _ => 7, fun _ => []⟩ "site").2 = false ∧
    (wFlushAttempt false []
      ⟨fun _ => ["l1", "l2"], fun _ => 7, fun _ => []⟩ "site").1.buffers "site" =
      ["l1", "l2"] ++ [] := by
  have h := flush_failure_restores_buffer
    ⟨fun _ => ["l1", "l2"], fun _ => 7, fun _ => []⟩ "site" [] (by decide)
  exact ⟨h.1, h.2.2.1⟩

/-! ### C8: the rotating writer never actually rotates -/

def rotLine : String := "aa"

def rotS1 : RotState := rotFlush 1 (rotSubmit rotInit "site" rotLine) "site"

def rotS2 : RotState := rotFlush 1 (rotSubmit rotS1 "site" rotLine) "site"

/-- C8: with a 1-byte size cap, two flushes of a 2-byte line each should
roll over to `site_part0001.jsonl`; instead both flushes land in the base
file, the cumulative-size counter stays `0` (the code adds the
just-zeroed buffer counter), and the part index never moves, so no
zero-padded part file is ever written. -/
theorem rotating_writer_never_rotates :
    (rotSubmit rotInit "site" rotLine).bufferSizes "site" = 2 ∧
    rotS1.fileSizes "site" = 0 ∧
    rotS2.filesByName (baseFileName "site") = [rotLine, rotLine] ∧
    rotS2.filesByName (rotFileName "site" 1) = [] ∧
    rotS2.fileIndices "site" = 0 ∧
    rotS2.fileSizes "site" = 0 ∧
    rotFileName "site" 1 = "site_part0001.jsonl" := by
  refine ⟨by decide, by decide, by decide, by decide, by decide, by decide, by decide⟩

/-! ### C4: exhaustion re-queue and priority tiers -/

def exhaustedReq : MRequest := ⟨0, 5, 5, true, false, false, 2⟩

/-- C4 counterexample: a request whose retry budget is exhausted is re-queued
by `SmartRetryMiddleware` at the flat priority `100` whatever the failure
reason was, so an exhausted *timed-out* request is re-queued at `100`,
which is not below the rate-limited tier (`50`) — the claimed
bot > rate-limited > timeout ordering does not hold on the exhaustion
path. -/
theorem requeue_tiers_cex :
    smartRetry true 10 exhaustedReq .timeoutExc = .giveUp (some 100) ∧
    smartRetry true 10 exhaustedReq (.status 429) = .giveUp (some 100) ∧
    errbackPriority .rateLimited429 = 50 ∧
    ¬ (100 < errbackPriority .rateLimited429) := by
  exact ⟨rfl, rfl, rfl, by decide⟩

/-- C4 (amended): a request that exhausts its retry budget is pushed to the
external re-queue channel (when the spider exposes the hook) at the fixed
priority `100`, which lands at the front of the Redis list; the
severity-ordered tiers (403 bot-block `100` > rate-limit `50` > timeout
`10`) exist only in the spider error callback, and the bot-protection
middleware re-queues at `90`. -/
theorem requeue_on_exhaustion (req : MRequest) (reason : RetryReason)
    (adjust : Int) (h : req.maxRetryTimes < req.retryTimes + 1) :
    smartRetry true adjust req reason = .giveUp (some 100) ∧
    requeueEnd 100 = QueueEnd.front ∧
    errbackPriority .rateLimited429 < errbackPriority .forbidden403 ∧
    errbackPriority .timeout < errbackPriority .rateLimited429 ∧
    botProtectionRequeuePriority = 90 := by
  refine ⟨?_, rfl, by decide, by decide, rfl⟩
  unfold smartRetry
  rw [if_neg (by omega)]
  rfl

theorem requeue_on_exhaustion_witness :
    smartRetry true 10 exhaustedReq .connectionExc = .giveUp (some 100) ∧
    requeueEnd 100 = QueueEnd.front ∧
    errbackPriority .rateLimited429 < errbackPriority .forbidden403 ∧
    errbackPriority .timeout < errbackPriority .rateLimited429 ∧
    botProtectionRequeuePriority = 90 :=
  requeue_on_exhaustion exhaustedReq .connectionExc 10 (by decide)

/-! ### C5: three 429s then a 200 -/

def c5Codes : List Nat := [403, 429, 500, 502, 503, 504, 520, 524]

def c5Req : MRequest := ⟨100, 0, 5, true, false, false, 2⟩

/-- C5 counterexample: after three 429 retries the delivered request's
scheduled priority is `110` — the article-class priority `100` plus a
single boost — not the initial priority plus `2 × priority_boost`
(`100 + 20 = 120`), because `RequestPriorityMiddleware` resets the
priority to `100` on every attempt before the retry boost is applied. -/
theorem retry_priority_scenario_cex :
    runAttempts c5Codes 10 c5Req [429, 429, 429, 200] =
      some ({ c5Req with retryTimes := 3, priority := 110 }, 200) ∧
    c5Req.priority + 2 * 10 ≠ (110 : Int) := by
  exact ⟨rfl, by decide⟩

/-- C5 (amended): for a request whose first three responses are 429 and
whose fourth is 200, the 200 response is delivered to the extraction
callback (so an OutputRecord is produced when extraction succeeds), and
the final request's scheduled priority equals `100 + RETRY_PRIORITY_ADJUST`
— one boost above the article-class priority — independently of the
initial priority `p`. -/
theorem retry_priority_scenario (p adjust : Int) :
    runAttempts c5Codes adjust ⟨p, 0, 5, true, false, false, 2⟩
        [429, 429, 429, 200] =
      some (⟨100 + adjust, 3, 5, true, false, false, 2⟩, 200) := rfl

/-! ### C7: dedup counts -/

/-- C7 (amended): over any chunked input whose record URLs are non-empty
and carry no surrounding whitespace, and any duplicate-free seed set, the
single-file output holds exactly one record per distinct URL not in the
seed set, and the grouped-mode per-site counts sum to the same number. -/
theorem dedupe_exactly_one_per_new_url (seed : List String)
    (chunks : List (List DRecord)) (hseed : seed.Nodup)
    (hurls : ∀ r ∈ chunks.join, r.url ≠ "" ∧ pyStrip r.url = r.url) :
    (runDedupe false seed chunks).flat.length = distinctNewCount seed chunks.join ∧
    groupTotal (runDedupe true seed chunks).grouped =
      distinctNewCount seed chunks.join := by
  have h1 := runDedupe_count false seed chunks hseed hurls
  have h2 := runDedupe_count true seed chunks hseed hurls
  have h3 := runDedupe_single_grouped seed chunks hurls
  have h4 := runDedupe_grouped_flat seed chunks hurls
  constructor
  · rw [h3] at h1
    simpa [groupTotal] using h1
  · rw [h4] at h2
    simpa using h2

theorem dedupe_exactly_one_per_new_url_witness :
    (runDedupe false ["http://s.com/seen"]
      [[⟨"http://a.com/x", 0⟩, ⟨"http://a.com/x", 1⟩],
       [⟨"http://s.com/seen", 2⟩, ⟨"http://b.com/y", 3⟩]]).flat.length =
      distinctNewCount ["http://s.com/seen"]
        (List.join [[⟨"http://a.com/x", 0⟩, ⟨"http://a.com/x", 1⟩],
          [⟨"http://s.com/seen", 2⟩, ⟨"http://b.com/y", 3⟩]]) ∧
    groupTotal (runDedupe true ["http://s.com/seen"]
      [[⟨"http://a.com/x", 0⟩, ⟨"http://a.com/x", 1⟩],
       [⟨"http://s.com/seen", 2⟩, ⟨"http://b.com/y", 3⟩]]).grouped =
      distinctNewCount ["http://s.com/seen"]
        (List.join [[⟨"http://a.com/x", 0⟩, ⟨"http://a.com/x", 1⟩],
          [⟨"http://s.com/seen", 2⟩, ⟨"http://b.com/y", 3⟩]]) :=
  dedupe_exactly_one_per_new_url _ _ (by decide) (by decide)

/-- C7 counterexample: two records whose URLs differ only by surrounding
whitespace (`"a"` and `" a"`) are *distinct URLs*, yet only one output
record is emitted, because the intra-chunk dedup strips URLs while the
cross-chunk check does not. -/
theorem dedupe_whitespace_cex :
    (runDedupe false [] [[⟨"a", 0⟩, ⟨" a", 1⟩]]).flat.length = 1 ∧
    distinctNewCount [] (List.join [[⟨"a", 0⟩, ⟨" a", 1⟩]]) = 2 := by
  exact ⟨by decide, by decide⟩

/-! ### C9: URL admission filter -/

/-- C9: the admission filter rejects any URL matching a deny pattern (even
one that also matches an allow pattern), accepts a URL matching an allow
pattern and no deny pattern, rejects URLs matching neither, and the
heuristic parser yields no item whatsoever for a rejected URL. -/
theorem url_admission_filter (url : String) :
    (denyMatch (lowerStr url) = true → isArticleUrl url = false) ∧
    (denyMatch (lowerStr url) = false → allowMatch (lowerStr url) = true →
      isArticleUrl url = true) ∧
    (denyMatch (lowerStr url) = false → allowMatch (lowerStr url) = false →
      isArticleUrl url = false) ∧
    (∀ (minBodyChars : Nat) (pg : Page), isArticleUrl url = false →
      genericParseItem minBodyChars url pg = none) := by
  refine ⟨?_, ?_, ?_, ?_⟩
  · intro h
    unfold isArticleUrl
    rw [if_pos h]
  · intro h1 h2
    unfold isArticleUrl
    rw [if_neg (by simp [h1]), if_pos h2]
  · intro h1 h2
    unfold isArticleUrl
    rw [if_neg (by simp [h1]), if_neg (by simp [h2])]
  · intro minB pg h
    unfold genericParseItem
    rw [if_pos h]

set_option maxRecDepth 8000 in
theorem url_admission_filter_witness :
    (denyMatch (lowerStr "https://ex.com/login/news/some-story") = true ∧
     isArticleUrl "https://ex.com/login/news/some-story" = false ∧
     genericParseItem 200 "https://ex.com/login/news/some-story" goodPage = none) ∧
    (allowMatch (lowerStr "https://ex.com/news/some-story") = true ∧
     denyMatch (lowerStr "https://ex.com/news/some-story") = false ∧
     isArticleUrl "https://ex.com/news/some-story" = true) ∧
    (denyMatch (lowerStr "https://ex.com/about-us") = false ∧
     allowMatch (lowerStr "https://ex.com/about-us") = false ∧
     isArticleUrl "https://ex.com/about-us" = false) := by
  have hdeny : denyMatch (lowerStr "https://ex.com/login/news/some-story") = true := by
    decide
  have h1 := (url_admission_filter "https://ex.com/login/news/some-story").1 hdeny
  have h2 := ((url_admission_filter "https://ex.com/login/news/some-story").2.2.2) 200
    goodPage h1
  have h3 := (url_admission_filter "https://ex.com/news/some-story").2.1
    (by decide) (by decide)
  have h4 := (url_admission_filter "https://ex.com/about-us").2.2.1
    (by decide) (by decide)
  exact ⟨⟨hdeny, h1, h2⟩, ⟨by decide, by decide, h3⟩, ⟨by decide, by decide, h4⟩⟩

/-! ### C3: heuristic body extraction -/

/-- The scoring formula as the claim states it. -/
def specScore (pg : Page) (n : HtmlNode) : Int :=
  (textLenOf pg n : Int)
    + 100 * (countDesc pg n (fun m => m.tag == "p") : Int)
    - 50 * (countDesc pg n (fun m => m.tag == "a") : Int)
    - 150 * (countDesc pg n isNavLike : Int)
    - 10 * (countDesc pg n (fun m => m.tag == "li") : Int)
    - (if textLenOf pg n < 150 then 1000 else 0)

theorem nodeScore_eq_specScore (pg : Page) (n : HtmlNode) :
    nodeScore pg n = specScore pg n := by
  unfold nodeScore specScore
  by_cases h : textLenOf pg n < 150
  · rw [if_pos h, if_pos h]
  · rw [if_neg h, if_neg h]
    omega

theorem pbFold_spec (pg : Page) :
    ∀ (l : List HtmlNode) (acc : Option (HtmlNode × Int)),
      (∀ q qs, acc = some (q, qs) → qs = nodeScore pg q) →
      ∀ b bs, l.foldl (pbStep pg) acc = some (b, bs) →
        bs = nodeScore pg b ∧
        (b ∈ l ∨ acc = some (b, bs)) ∧
        (∀ c ∈ l, nodeScore pg c ≤ bs) ∧
        (∀ q qs, acc = some (q, qs) → qs ≤ bs) := by
  intro l
  induction l with
  | nil =>
    intro acc hacc b bs hfold
    simp only [List.foldl_nil] at hfold
    refine ⟨hacc b bs hfold, Or.inr hfold, by simp, ?_⟩
    intro q qs hq
    rw [hq] at hfold
    obtain ⟨h1, h2⟩ := Prod.mk.injEq .. ▸ Option.some.inj hfold
    omega
  | cons n rest ih =>
    intro acc hacc b bs hfold
    have hfold' : rest.foldl (pbStep pg) (pbStep pg acc n) = some (b, bs) := hfold
    cases acc with
    | none =>
      have hstepEq : pbStep pg none n = some (n, nodeScore pg n) := rfl
      rw [hstepEq] at hfold'
      obtain ⟨r1, r2, r3, r4⟩ := ih (some (n, nodeScore pg n))
        (by intro q qs h; obtain ⟨h1, h2⟩ := Prod.mk.injEq .. ▸ Option.some.inj h
            rw [← h1, ← h2]) b bs hfold'
      refine ⟨r1, ?_, ?_, ?_⟩
      · rcases r2 with h | h
        · exact Or.inl (List.mem_cons_of_mem _ h)
        · obtain ⟨h1, _⟩ := Prod.mk.injEq .. ▸ Option.some.inj h
          exact Or.inl (h1 ▸ List.mem_cons_self _ _)
      · intro c hc
        rcases List.mem_cons.mp hc with hc | hc
        · subst hc
          exact r4 c (nodeScore pg c) rfl
        · exact r3 c hc
      · intro q qs h
        cases h
    | some p =>
      obtain ⟨b0, bs0⟩ := p
      have hbs0 : bs0 = nodeScore pg b0 := hacc b0 bs0 rfl
      by_cases hgt : nodeScore pg n > bs0
      · have hstepEq : pbStep pg (some (b0, bs0)) n = some (n, nodeScore pg n) := by
          show (if nodeScore pg n > bs0 then some (n, nodeScore pg n)
                else some (b0, bs0)) = some (n, nodeScore pg n)
          rw [if_pos hgt]
        rw [hstepEq] at hfold'
        obtain ⟨r1, r2, r3, r4⟩ := ih (some (n, nodeScore pg n))
          (by intro q qs h; obtain ⟨h1, h2⟩ := Prod.mk.injEq .. ▸ Option.some.inj h
              rw [← h1, ← h2]) b bs hfold'
        have hnle : nodeScore pg n ≤ bs := r4 n (nodeScore pg n) rfl
        refine ⟨r1, ?_, ?_, ?_⟩
        · rcases r2 with h | h
          · exact Or.inl (List.mem_cons_of_mem _ h)
          · obtain ⟨h1, _⟩ := Prod.mk.injEq .. ▸ Option.some.inj h
            exact Or.inl (h1 ▸ List.mem_cons_self _ _)
        · intro c hc
          rcases List.mem_cons.mp hc with hc | hc
          · subst hc; exact hnle
          · exact r3 c hc
        · intro q qs h
          obtain ⟨h1, h2⟩ := Prod.mk.injEq .. ▸ Option.some.inj h
          omega
      · have hstepEq : pbStep pg (some (b0, bs0)) n = some (b0, bs0) := by
          show (if nodeScore pg n > bs0 then some (n, nodeScore pg n)
                else some (b0, bs0)) = some (b0, bs0)
          rw [if_neg hgt]
        rw [hstepEq] at hfold'
        obtain ⟨r1, r2, r3, r4⟩ := ih (some (b0, bs0)) hacc b bs hfold'
        have hb0le : bs0 ≤ bs := r4 b0 bs0 rfl
        refine ⟨r1, ?_, ?_, ?_⟩
        · rcases r2 with h | h
          · exact Or.inl (List.mem_cons_of_mem _ h)
          · exact Or.inr h
        · intro c hc
          rcases List.mem_cons.mp hc with hc | hc
          · subst hc; omega
          · exact r3 c hc
        · intro q qs h
          obtain ⟨h1, h2⟩ := Prod.mk.injEq .. ▸ Option.some.inj h
          omega

theorem pickBest_spec (pg : Page) (l : List HtmlNode) (b : HtmlNode) (bs : Int)
    (h : pickBest pg l = some (b, bs)) :
    bs = nodeScore pg b ∧ b ∈ l ∧ ∀ c ∈ l, nodeScore pg c ≤ bs := by
  obtain ⟨r1, r2, r3, _⟩ := pbFold_spec pg l none (by intro q qs h'; cases h') b bs h
  refine ⟨r1, ?_, r3⟩
  rcases r2 with h' | h'
  · exact h'
  · cases h'

/-- C3 (amended): every candidate is scored with exactly the claimed
formula (including the `−1000` short-text penalty); the selected node is a
maximum-scoring candidate; when the best score is below 500 *and the page
has at least one paragraph outside nav/aside*, the extractor instead
returns the synthesized container holding those paragraphs in document
order; when no such paragraph exists, the best-scoring node is returned
despite its low score. -/
theorem heuristic_body_extraction_spec :
    (∀ (pg : Page) (n : HtmlNode), nodeScore pg n = specScore pg n) ∧
    (∀ (pg : Page) (b : HtmlNode) (bs : Int),
      pickBest pg (candidatesOf pg) = some (b, bs) →
      (bs = nodeScore pg b ∧ b ∈ candidatesOf pg ∧
        ∀ c ∈ candidatesOf pg, nodeScore pg c ≤ bs) ∧
      (500 ≤ bs → extractBodyHtml pg = some (subtreeOf pg b)) ∧
      (bs < 500 → fallbackParas pg ≠ [] →
        extractBodyHtml pg = some (synthFrag pg (fallbackParas pg))) ∧
      (bs < 500 → fallbackParas pg = [] →
        extractBodyHtml pg = some (subtreeOf pg b))) := by
  refine ⟨nodeScore_eq_specScore, ?_⟩
  intro pg b bs h
  refine ⟨pickBest_spec pg _ b bs h, ?_, ?_, ?_⟩
  · intro h500
    unfold extractBodyHtml
    rw [h]
    simp only
    rw [if_neg (by omega)]
  · intro h500 hparas
    unfold extractBodyHtml
    rw [h]
    simp only
    rw [if_pos h500, if_pos hparas]
  · intro h500 hparas
    unfold extractBodyHtml
    rw [h]
    simp only
    rw [if_pos h500, if_neg (by simp [hparas])]

/-- C3 counterexample: on a page with a single low-scoring `div` and no
paragraphs at all, the best score is `-1050 < 500` but the extractor
returns the subtree of that `div`, not the synthesized paragraph container the
claim requires for every best score below 500. -/
theorem heuristic_body_extraction_cex :
    pickBest lowPage (candidatesOf lowPage) =
      some (⟨[0], "div", [], ""⟩, -1050) ∧
    (-1050 : Int) < 500 ∧
    fallbackParas lowPage = [] ∧
    extractBodyHtml lowPage = some (subtreeOf lowPage ⟨[0], "div", [], ""⟩) ∧
    extractBodyHtml lowPage ≠ some (synthFrag lowPage (fallbackParas lowPage)) := by
  refine ⟨by decide, by decide, by decide, by decide, by decide⟩

set_option maxRecDepth 8000 in
theorem heuristic_body_extraction_witness :
    (711 = nodeScore goodPage ⟨[1], "article", [], ""⟩ ∧
      (⟨[1], "article", [], ""⟩ : HtmlNode) ∈ candidatesOf goodPage ∧
      ∀ c ∈ candidatesOf goodPage, nodeScore goodPage c ≤ 711) ∧
    extractBodyHtml goodPage =
      some (subtreeOf goodPage ⟨[1], "article", [], ""⟩) := by
  have h := heuristic_body_extraction_spec.2 goodPage ⟨[1], "article", [], ""⟩ 711
    (by decide)
  exact ⟨h.1, h.2.1 (by decide)⟩

/-! ### C1: selector failure in the dispatcher -/

/-- C1 (amended): for every page with a site config and no custom parser,
whenever selector-based extraction fails — the title selector yields
nothing (or only whitespace), or the body selector yields nothing, or the
body left after applying the exclusion selectors is empty or shorter than
the 50-character minimum — the dispatcher yields no item at all; the
Heuristic Content Scorer is never invoked as a fallback (it exists only as
a free-standing parser that nothing wires in), so such a page produces no
ExtractionResult. -/
theorem selector_failure_yields_nothing (cfg : DomainConfigM)
    (domain url : String) (pg : Page)
    (hcustom : cfg.customParser = none)
    (hfail : cfg.titleSel pg = none ∨
      (∃ t, cfg.titleSel pg = some t ∧ pyStrip t = "") ∨
      cfg.bodySel pg = none ∨
      (∃ b, cfg.bodySel pg = some b ∧
        (cfg.cleanBody b = "" ∨ (pyStrip (cfg.cleanBody b)).length < 50))) :
    spiderParseItem cfg domain url pg = none := by
  unfold spiderParseItem
  rw [hcustom]
  cases ht : cfg.titleSel pg with
  | none => rfl
  | some t =>
    simp only
    by_cases hstrip : pyStrip t = ""
    · rw [if_pos hstrip]
    · rw [if_neg hstrip]
      cases hb : cfg.bodySel pg with
      | none => rfl
      | some b =>
        simp only
        by_cases hclean : cfg.cleanBody b = "" ∨ (pyStrip (cfg.cleanBody b)).length < 50
        · rw [if_pos hclean]
        · exfalso
          rcases hfail with h | ⟨t', ht', hts⟩ | h | ⟨b', hb', hbc⟩
          · rw [ht] at h; cases h
          · rw [ht] at ht'
            obtain rfl := Option.some.inj ht'
            exact hstrip hts
          · rw [hb] at h; cases h
          · rw [hb] at hb'
            obtain rfl := Option.some.inj hb'
            exact hclean hbc

/-- A config whose title selector matches nothing on any page. -/
def cfgNoTitle : DomainConfigM :=
  { customParser := none,
    titleSel := fun _ => none,
    tagsSel := none,
    authorSel := none,
    dateSel := none,
    bodySel := fun _ => some "<div>whatever</div>",
    cleanBody := fun s => s,
    lang := "en" }

theorem selector_failure_yields_nothing_witness :
    spiderParseItem cfgNoTitle "ex.com" goodUrl goodPage = none :=
  selector_failure_yields_nothing cfgNoTitle "ex.com" goodUrl goodPage rfl
    (Or.inl rfl)

set_option maxRecDepth 8000 in
/-- C1 counterexample: a page with a config whose title selector matches
nothing is dropped by the dispatcher with no item, even though the
Heuristic Content Scorer applied to the very same page would extract an
article — the claimed fall-through to the heuristic does not exist. -/
theorem selector_failure_heuristic_unreached_cex :
    spiderParseItem cfgNoTitle "ex.com" goodUrl goodPage = none ∧
    (genericParseItem 200 goodUrl goodPage).isSome = true := by
  exact ⟨rfl, by decide⟩

end Bigdata
